import Mathlib

/-!
Verification of the hybrid-search and context-assembly core of a RAG
(retrieval-augmented generation) pipeline.

The definitions below are a shallow embedding of the Python source:

* `Chunk`                      — `src/core/domain/chunk.py` (the fields the
                                 search pipeline reads; equality is by
                                 `content_hash`, cf. `Chunk.__eq__`).
* `combine_search_results`     — `SearchDocumentsUseCase._combine_search_results`
                                 (`src/core/use_cases/search_documents.py`).
* `extract_key_terms`          — `SearchDocumentsUseCase._extract_key_terms`.
* `search_text_chunks`         — `PostgresDocumentRepository.search_text_chunks`
                                 (`src/infrastructure/database/repositories/`).
* `hybrid_search_chunks`       — `SearchDocumentsUseCase._hybrid_search_chunks`.
* `format_prompt`, `truncate_context_if_needed`, `validate_prompt_length`
                               — `SearchPromptTemplate`
                                 (`src/presentation/prompts/search_prompt.py`).
* `execute`                    — `SearchDocumentsUseCase.execute`.

Scores are Python floats in the source; they are modelled as rationals (`ℚ`).
External collaborators (embedding service, pgvector similarity query, LLM
client) are oracle fields of a `Services` record; every call the use case
makes to them is recorded in a `CallLog` so that claims about which
collaborators are (not) invoked become provable statements.
-/

namespace RagSearch

/-- Text-chunk domain entity (`src/core/domain/chunk.py`), restricted to the
fields the search pipeline reads.  `content_hash` is the SHA-256 fingerprint
of the content computed at ingestion; the search code treats it as an opaque
string key. -/
structure Chunk where
  id : Option Int := none
  document_id : Option Int := none
  chunk_index : Int := 0
  content : String := ""
  content_hash : String := ""
  page_number : Option Int := none
  deriving DecidableEq

/-- Python `Chunk.__eq__`: two chunks are equal exactly when their content
fingerprints coincide, regardless of identifiers or indices. -/
def Chunk.pyEq (a b : Chunk) : Bool :=
  a.content_hash == b.content_hash

/-- A retrieval result: a chunk paired with its relevance score
(`List[Tuple[Chunk, float]]` in the source; floats modelled as `ℚ`). -/
abbrev Result := Chunk × ℚ

/-- Python list slicing `l[:k]` (the final `combined[:limit]` truncation).
For `k ≥ 0` it keeps the first `k` items; for negative `k` it keeps
`len(l) + k` items (clamped at zero), exactly as Python slices do. -/
def pySliceTo {α : Type} (l : List α) (k : Int) : List α :=
  if 0 ≤ k then l.take k.toNat else l.take ((l.length : Int) + k).toNat

/-- Membership test `k in unique_chunks` on the insertion-ordered
association list that models the Python `dict`. -/
def keyMem (m : List (String × Result)) (k : String) : Bool :=
  m.any (fun p => p.1 == k)

/-- Python `dict` assignment `unique_chunks[k] = v`: if the key is present
its value is replaced in place (the key keeps its original insertion
position); otherwise the pair is appended, exactly as insertion-ordered
CPython dicts behave. -/
def dictInsert (m : List (String × Result)) (k : String) (v : Result) :
    List (String × Result) :=
  if keyMem m k then m.map (fun p => if p.1 == k then (k, v) else p)
  else m ++ [(k, v)]

/-- First loop of `_combine_search_results`:
`unique_chunks[chunk.content_hash] = (chunk, similarity)` for a semantic
result. -/
def insertSemantic (m : List (String × Result)) (cv : Result) :
    List (String × Result) :=
  dictInsert m cv.1.content_hash cv

/-- Second loop of `_combine_search_results`: a text result is inserted only
`if chunk.content_hash not in unique_chunks`. -/
def insertText (m : List (String × Result)) (cv : Result) :
    List (String × Result) :=
  if keyMem m cv.1.content_hash then m else m ++ [(cv.1.content_hash, cv)]

/-- The `unique_chunks` dict after both insertion loops of
`_combine_search_results`: all semantic results first, then text results
for fingerprints not already present. -/
def mergeMap (semantic text : List Result) : List (String × Result) :=
  text.foldl insertText (semantic.foldl insertSemantic [])

/-- Ordering used by `combined.sort(key=lambda x: x[1], reverse=True)`:
descending by score. -/
def scoreDesc (a b : Result) : Prop :=
  b.2 ≤ a.2

instance : DecidableRel scoreDesc :=
  fun a b => inferInstanceAs (Decidable (b.2 ≤ a.2))

instance : IsTotal Result scoreDesc :=
  ⟨fun a b => le_total b.2 a.2⟩

instance : IsTrans Result scoreDesc :=
  ⟨fun _ _ _ hab hbc => le_trans hbc hab⟩

/-- Python's `list.sort` is a stable sort, and a stable sort is a function
of the comparator alone, so it is modelled by the stable
`List.insertionSort`: same comparator, same output list. -/
def pySortByScoreDesc (l : List Result) : List Result :=
  List.insertionSort scoreDesc l

/-- The list `list(unique_chunks.values())` sorted by score descending — the merged
collection of `_combine_search_results` just before the final truncation. -/
def merged_results (semantic text : List Result) : List Result :=
  pySortByScoreDesc ((mergeMap semantic text).map Prod.snd)

/-- Method `SearchDocumentsUseCase._combine_search_results`: deduplicate by content
fingerprint (semantic results win a collision), sort by score descending,
truncate with `combined[:limit]`. -/
def combine_search_results (semantic text : List Result) (limit : Int) :
    List Result :=
  pySliceTo (merged_results semantic text) limit

/-- The fixed Portuguese stop-word set of `_extract_key_terms`. -/
def stop_words : List String :=
  ["qual", "o", "da", "de", "do", "das", "dos", "a", "as", "e", "em",
   "na", "no", "nas", "nos", "para", "com", "por", "que", "se", "um",
   "uma", "uns", "umas"]

/-- Python `str.lower()`, character by character (`Char.toLower` covers the
ASCII range; Python also lowercases further Unicode letters — no claim
depends on non-ASCII case folding). -/
def pyLower (s : String) : String :=
  String.mk (s.toList.map Char.toLower)

/-- A word character of the regex `\w` (ASCII letters, digits and the
underscore; the Python pattern also accepts further Unicode letters, which
this ASCII model omits — no claim depends on non-ASCII tokens). -/
def isWordChar (c : Char) : Bool :=
  c.isAlphanum || c == '_'

/-- Splits a character list into the maximal runs of word characters, which
is what `re.findall` does with a `\b\w{...}\b` pattern before the length
constraint; `acc` holds the current run reversed. -/
def wordRunsAux : List Char → List Char → List (List Char)
  | [], acc => if acc.isEmpty then [] else [acc.reverse]
  | c :: rest, acc =>
    if isWordChar c then wordRunsAux rest (c :: acc)
    else if acc.isEmpty then wordRunsAux rest []
    else acc.reverse :: wordRunsAux rest []

/-- Method `SearchDocumentsUseCase._extract_key_terms`: lowercase the question,
take the maximal word-character runs of length at least 3
(`re.findall(r"\b\w{3,}\b", question.lower())`), and drop stop words.
Lowercasing is `pyLower`, which like the model of `\w` covers the ASCII
range. -/
def extract_key_terms (question : String) : List String :=
  let words := ((wordRunsAux (pyLower question).toList []).filter
    (fun w => 3 ≤ w.length)).map (fun w => String.mk w)
  words.filter (fun w => ¬ stop_words.contains w)

/-- Case-insensitive substring test: both the SQL `ILIKE '%term%'` filter
and the Python scoring test `term.lower() in content_lower`.  (Key terms
come from `\w` runs, so they contain no `%` pattern wildcard.) -/
def ilikeContains (content term : String) : Bool :=
  decide ((pyLower term).toList <:+: (pyLower content).toList)

/-- Method `PostgresDocumentRepository.search_text_chunks` over an in-memory table
`db` of chunk rows: return `[]` for an empty term list; otherwise select up
to `limit` rows whose content matches any term (the `or_`-combined `ILIKE`
conditions; the SQL query has no ORDER BY, so row order is table order),
score each selected row by (number of matching terms) / (number of terms),
and sort by that score descending. -/
def search_text_chunks (db : List Chunk) (key_terms : List String)
    (limit : Int) : List Result :=
  if key_terms = [] then []
  else
    let selected := (db.filter
      (fun ch => key_terms.any (fun t => ilikeContains ch.content t))).take
      limit.toNat
    let scored := selected.map (fun ch =>
      (ch, mkRat (key_terms.filter (fun t => ilikeContains ch.content t)).length
        key_terms.length))
    pySortByScoreDesc scored

/-- A context item as built by `_format_chunks_as_context`: the Python dict
`{"content": ..., "metadata": {"page_number": ..., "chunk_index": ...,
"similarity_score": ..., "document_id": ...}}`.  All four metadata keys are
always present; a `none` field models the key holding Python `None`. -/
structure ContextItem where
  content : String := ""
  page_number : Option Int := none
  chunk_index : Int := 0
  similarity_score : ℚ := 0
  document_id : Option Int := none
  deriving DecidableEq

/-- Rounds the integer fraction `m / d` (`d > 0`) to the nearest integer,
ties to even — the rounding mode of Python's `round`. -/
def roundHalfEven (m : Int) (d : Nat) : Int :=
  let qf := m.fdiv d
  let r := m.fmod d
  if 2 * r < (d : Int) then qf
  else if (d : Int) < 2 * r then qf + 1
  else if qf % 2 = 0 then qf else qf + 1

/-- Python `round(similarity, 4)`: the score rounded to the nearest 1/10000, ties
to even (Python rounds the binary float; the model rounds the exact
rational).  The rounded score is carried in the metadata only and never
rendered into the prompt text. -/
def round4 (q : ℚ) : ℚ :=
  mkRat (roundHalfEven (q.num * 10000) q.den) 10000

/-- Method `SearchDocumentsUseCase._format_chunks_as_context`: re-project each
scored chunk into a `ContextItem`, preserving order. -/
def format_chunks_as_context (chunks : List Result) : List ContextItem :=
  chunks.map (fun cv =>
    { content := cv.1.content
      page_number := cv.1.page_number
      chunk_index := cv.1.chunk_index
      similarity_score := round4 cv.2
      document_id := cv.1.document_id })

/-- How Python renders an f-string interpolation of an optional int:
`None` for the absent value, the decimal numeral otherwise. -/
def pyOptIntStr : Option Int → String
  | none => "None"
  | some n => toString n

/-- Template `SearchPromptTemplate.BASE_TEMPLATE` up to the `context` placeholder. -/
def basePrefix : String :=
  "\nCONTEXTO:\n"

/-- Template `SearchPromptTemplate.BASE_TEMPLATE` between the `context` and
`question` placeholders. -/
def baseMiddle : String :=
  "\n\nREGRAS:\n- Responda somente com base no CONTEXTO fornecido.\n" ++
  "- Se a informação não estiver explicitamente no CONTEXTO, responda:\n" ++
  "  \"Não tenho informações necessárias para responder sua pergunta.\"\n" ++
  "- Nunca invente ou use conhecimento externo.\n" ++
  "- Nunca produza opiniões ou interpretações além do que está escrito.\n" ++
  "- Mantenha as respostas concisas e diretas.\n" ++
  "- Use linguagem clara e objetiva.\n\n" ++
  "EXEMPLOS DE PERGUNTAS FORA DO CONTEXTO:\n" ++
  "Pergunta: \"Qual é a capital da França?\"\n" ++
  "Resposta: \"Não tenho informações necessárias para responder sua pergunta.\"\n\n" ++
  "Pergunta: \"Quantos clientes temos em 2024?\"\n" ++
  "Resposta: \"Não tenho informações necessárias para responder sua pergunta.\"\n\n" ++
  "Pergunta: \"Você acha isso bom ou ruim?\"\n" ++
  "Resposta: \"Não tenho informações necessárias para responder sua pergunta.\"\n\n" ++
  "PERGUNTA DO USUÁRIO:\n"

/-- Template `SearchPromptTemplate.BASE_TEMPLATE` after the `question` placeholder. -/
def baseSuffix : String :=
  "\n\nRESPONDA A \"PERGUNTA DO USUÁRIO\":\n"

/-- Method `SearchPromptTemplate._format_context`: number the items from 1 and
render each as `"{i}. {content} (Página {page}, Chunk {index})"`, joined by
blank lines (both metadata keys are always present in the dicts built by
`_format_chunks_as_context`, so both appear, `None` included). -/
def format_context_items (context : List ContextItem) : String :=
  if context = [] then "Nenhum contexto fornecido."
  else
    String.intercalate "\n\n" ((context.enumFrom 1).map (fun p =>
      toString p.1 ++ ". " ++ p.2.content ++ " (Página " ++
      pyOptIntStr p.2.page_number ++ ", Chunk " ++
      toString p.2.chunk_index ++ ")"))

/-- Method `SearchPromptTemplate.format_prompt` on the default base template:
substitute the rendered context (or the fixed no-context text for an empty
list) and the question into `BASE_TEMPLATE`. -/
def format_prompt (question : String) (context : List ContextItem) : String :=
  let context_text :=
    if context = [] then "Nenhum contexto fornecido."
    else format_context_items context
  basePrefix ++ context_text ++ baseMiddle ++ question ++ baseSuffix

/-- Method `SearchPromptTemplate.validate_prompt_length`: character length at most
`max_length` (default 32000). -/
def validate_prompt_length (prompt : String) (max_length : Nat := 32000) :
    Bool :=
  prompt.length ≤ max_length

/-- Method `SearchPromptTemplate.truncate_context_if_needed`: working on a copy of
the context list, repeatedly `pop()` the last item until the rendered
prompt fits in `max_length` characters or the list is empty. -/
def truncate_context_if_needed (context : List ContextItem)
    (question : String) (max_length : Nat := 32000) : List ContextItem :=
  if h : context = [] then []
  else if validate_prompt_length (format_prompt question context) max_length
    then context
  else truncate_context_if_needed context.dropLast question max_length
termination_by context.length
decreasing_by
  have hpos : 0 < context.length := List.length_pos.mpr h
  simp only [List.length_dropLast]
  omega

/-- The record of collaborator calls made during one `execute` run; the
claims about which services are (not) invoked are stated on this log.
Semantic-search calls record `(limit, similarity_threshold)` arguments and
text-search calls record `(key_terms, limit)` arguments, in call order. -/
structure CallLog where
  embed_calls : Nat := 0
  semantic_calls : List (Int × ℚ) := []
  text_calls : List (List String × Int) := []
  limit_checks : Nat := 0
  generate_calls : Nat := 0
  history_saves : Nat := 0
  deriving DecidableEq

/-- The external collaborators of the use case: the embedding service, the
pgvector similarity query (`search_similar_chunks`, an external primitive
of the store), the chunk table backing the lexical SQL query, and the LLM
client with its prompt-budget check. -/
structure Services where
  embed : String → List ℚ
  search_similar_chunks : List ℚ → Int → ℚ → List Result
  db : List Chunk
  is_prompt_within_limits : String → List ContextItem → Bool
  generate_response : String → List ContextItem → String

/-- Python `int(limit * 0.7)`: Python truncates the product toward zero.  (Python
computes the product in IEEE doubles; the model truncates the exact
rational `limit * 7/10`, which is Lean's `Int.tdiv` of `7 * limit` by 10 —
T-division truncates toward zero like Python `int`.) -/
def intTimesPoint7 (limit : Int) : Int :=
  (7 * limit).tdiv 10

/-- Method `SearchDocumentsUseCase._hybrid_search_chunks`: extract key terms,
query the semantic primitive with sub-limit `max(1, int(limit * 0.7))` and
threshold `0.0`, query the lexical search with sub-limit
`max(1, limit - len(semantic_chunks))`, and merge with
`_combine_search_results`.  Both store queries are appended to the call
log. -/
def hybrid_search_chunks (svc : Services) (question : String)
    (question_embedding : List ℚ) (limit : Int) (log : CallLog) :
    List Result × CallLog :=
  let key_terms := extract_key_terms question
  let semantic_limit : Int := max 1 (intTimesPoint7 limit)
  let semantic_chunks :=
    svc.search_similar_chunks question_embedding semantic_limit 0
  let log := { log with
    semantic_calls := log.semantic_calls ++ [(semantic_limit, 0)] }
  let text_limit : Int := max 1 (limit - semantic_chunks.length)
  let text_chunks := search_text_chunks svc.db key_terms text_limit
  let log := { log with
    text_calls := log.text_calls ++ [(key_terms, text_limit)] }
  (combine_search_results semantic_chunks text_chunks limit, log)

/-- Method `SearchDocumentsUseCase._generate_ai_response`: build the prompt, ask
the LLM client whether it is within limits, truncate the context and
rebuild the prompt if not, then call the LLM client. -/
def generate_ai_response (svc : Services) (question : String)
    (context : List ContextItem) (log : CallLog) : String × CallLog :=
  let prompt := format_prompt question context
  let log := { log with limit_checks := log.limit_checks + 1 }
  let cp :=
    if svc.is_prompt_within_limits prompt context then (context, prompt)
    else
      let context2 := truncate_context_if_needed context question
      (context2, format_prompt question context2)
  (svc.generate_response cp.2 cp.1,
    { log with generate_calls := log.generate_calls + 1 })

/-- Method `SearchDocumentsUseCase.execute`: embed the question, run the hybrid
search, return the fixed fallback string when it produces no chunks, and
otherwise format the context, generate the answer and save the search
history (a best-effort external write, counted in the log). -/
def execute (svc : Services) (question : String) (limit : Int := 10) :
    String × CallLog :=
  let question_embedding := svc.embed question
  let log : CallLog := { embed_calls := 1 }
  let hr := hybrid_search_chunks svc question question_embedding limit log
  let similar_chunks := hr.1
  let log := hr.2
  if similar_chunks = [] then
    ("Não tenho informações necessárias para responder sua pergunta.", log)
  else
    let context := format_chunks_as_context similar_chunks
    let rl := generate_ai_response svc question context log
    (rl.1, { rl.2 with history_saves := rl.2.history_saves + 1 })

/-- Modelled from the spec: the semantic sub-limit as §4.1 step 2 states
it, `ceil_or_floor(limit * 0.7)` with minimum 1 (truncation toward zero
takes the floor for non-negative limits and the ceiling for negative ones,
both allowed by the spec's `ceil_or_floor`). -/
def spec_semantic_sublimit (limit : Int) : Int :=
  max 1 (intTimesPoint7 limit)

/-- Modelled from the spec: the lexical sub-limit as §4.1 step 3 states it,
`max(1, limit − count(semanticResults))`. -/
def spec_lexical_sublimit (limit : Int) (semantic_count : Nat) : Int :=
  max 1 (limit - semantic_count)

/-- The entries of the `unique_chunks` association list holding a given
fingerprint key (proof infrastructure for the merge lemmas). -/
def filterKey (m : List (String × Result)) (h : String) :
    List (String × Result) :=
  m.filter (fun p => p.1 == h)

/-- Invariant of the `unique_chunks` association list: keys are pairwise
distinct, and every entry is keyed by its own chunk's content fingerprint
(proof infrastructure for the merge lemmas). -/
def goodMap (m : List (String × Result)) : Prop :=
  (m.map Prod.fst).Nodup ∧ ∀ p ∈ m, p.1 = p.2.1.content_hash

/-- Concrete fixture: `chunkA` of the spec's concrete merge scenario. -/
def chunkA : Chunk :=
  { content := "A", content_hash := "a" }

/-- Concrete fixture: `chunkB` of the spec's concrete merge scenario. -/
def chunkB : Chunk :=
  { content := "B", content_hash := "b" }

/-- Concrete fixture: `chunkC` of the spec's concrete merge scenario. -/
def chunkC : Chunk :=
  { content := "C", content_hash := "c" }

/-- Concrete fixture: collaborators that find nothing — the embedding is
empty, the vector store returns no semantic match and its chunk table is
empty. -/
def svcEmpty : Services :=
  { embed := fun _ => []
    search_similar_chunks := fun _ _ _ => []
    db := []
    is_prompt_within_limits := fun _ _ => true
    generate_response := fun _ _ => "resposta" }

/-- Concrete fixture: collaborators whose semantic search always returns
`chunkA` with score 0.9. -/
def svcSemA : Services :=
  { svcEmpty with search_similar_chunks := fun _ _ _ => [(chunkA, mkRat 9 10)] }

lemma pySliceTo_sublist {α : Type} (l : List α) (k : Int) :
    (pySliceTo l k).Sublist l := by
  unfold pySliceTo
  split <;> exact List.take_sublist _ _

lemma combine_sublist_merged (semantic text : List Result) (limit : Int) :
    (combine_search_results semantic text limit).Sublist
      (merged_results semantic text) :=
  pySliceTo_sublist _ _

lemma merged_results_sorted (semantic text : List Result) :
    (merged_results semantic text).Pairwise scoreDesc :=
  List.sorted_insertionSort scoreDesc _

lemma keyMem_false_iff (m : List (String × Result)) (k : String) :
    keyMem m k = false ↔ ∀ p ∈ m, p.1 ≠ k := by
  simp [keyMem]

lemma filterKey_eq_nil_iff (m : List (String × Result)) (k : String) :
    filterKey m k = [] ↔ keyMem m k = false := by
  rw [keyMem_false_iff]
  simp [filterKey, List.filter_eq_nil_iff]

lemma keyMem_true_of_filterKey_ne_nil (m : List (String × Result))
    (k : String) (hne : filterKey m k ≠ []) : keyMem m k = true := by
  cases hb : keyMem m k with
  | true => rfl
  | false => exact absurd ((filterKey_eq_nil_iff m k).mpr hb) hne

lemma map_fst_update (m : List (String × Result)) (k : String) (v : Result) :
    (m.map (fun p => if p.1 == k then (k, v) else p)).map Prod.fst
      = m.map Prod.fst := by
  rw [List.map_map]
  apply List.map_congr_left
  intro p _
  by_cases hp : p.1 = k
  · simp [hp]
  · simp [hp]

lemma goodMap_append_new (m : List (String × Result)) (k : String)
    (v : Result) (hmem : keyMem m k = false) (hk : k = v.1.content_hash)
    (hm : goodMap m) : goodMap (m ++ [(k, v)]) := by
  have hnot : ∀ p ∈ m, p.1 ≠ k := (keyMem_false_iff m k).mp hmem
  constructor
  · rw [List.map_append, List.nodup_append]
    refine ⟨hm.1, List.nodup_singleton _, ?_⟩
    intro a ha hb
    simp only [List.map_cons, List.map_nil, List.mem_singleton] at hb
    rcases List.mem_map.mp ha with ⟨q, hq, rfl⟩
    exact hnot q hq hb
  · intro p hp
    rcases List.mem_append.mp hp with h | h
    · exact hm.2 p h
    · simp only [List.mem_singleton] at h
      subst h
      exact hk

lemma goodMap_dictInsert (m : List (String × Result)) (k : String)
    (v : Result) (hk : k = v.1.content_hash) (hm : goodMap m) :
    goodMap (dictInsert m k v) := by
  unfold dictInsert
  split
  · constructor
    · rw [map_fst_update]
      exact hm.1
    · intro p hp
      rcases List.mem_map.mp hp with ⟨q, hq, rfl⟩
      by_cases h : q.1 = k
      · simpa [h] using hk
      · simpa [h] using hm.2 q hq
  · exact goodMap_append_new m k v (by simp_all) hk hm

lemma goodMap_foldl_insertSemantic (sem : List Result) :
    ∀ m, goodMap m → goodMap (sem.foldl insertSemantic m) := by
  induction sem with
  | nil => exact fun m hm => hm
  | cons x rest ih =>
    intro m hm
    simp only [List.foldl_cons]
    exact ih _ (goodMap_dictInsert m _ x rfl hm)

lemma goodMap_foldl_insertText (lex : List Result) :
    ∀ m, goodMap m → goodMap (lex.foldl insertText m) := by
  induction lex with
  | nil => exact fun m hm => hm
  | cons x rest ih =>
    intro m hm
    simp only [List.foldl_cons]
    refine ih _ ?_
    unfold insertText
    split
    · exact hm
    · exact goodMap_append_new m _ x (by simp_all) rfl hm

lemma goodMap_mergeMap (semantic text : List Result) :
    goodMap (mergeMap semantic text) :=
  goodMap_foldl_insertText text _
    (goodMap_foldl_insertSemantic semantic [] ⟨List.nodup_nil, by simp⟩)

lemma pairwise_hash_of_goodMap (m : List (String × Result))
    (hm : goodMap m) :
    (m.map Prod.snd).Pairwise
      (fun a b => a.1.content_hash ≠ b.1.content_hash) := by
  rw [List.pairwise_map]
  have hfst : m.Pairwise (fun p q => p.1 ≠ q.1) :=
    List.pairwise_map.mp hm.1
  refine hfst.imp_of_mem ?_
  intro p q hp hq hne
  rw [hm.2 p hp, hm.2 q hq] at hne
  exact hne

lemma merged_results_pairwise_hash (semantic text : List Result) :
    (merged_results semantic text).Pairwise
      (fun a b => a.1.content_hash ≠ b.1.content_hash) := by
  have hperm := List.perm_insertionSort scoreDesc
    ((mergeMap semantic text).map Prod.snd)
  have hsym : ∀ {x y : Result},
      x.1.content_hash ≠ y.1.content_hash →
      y.1.content_hash ≠ x.1.content_hash := fun h => h.symm
  exact (List.Perm.pairwise_iff hsym hperm).mpr
    (pairwise_hash_of_goodMap _ (goodMap_mergeMap semantic text))

/-- C4.  For every pair of semantic and lexical input lists (and any
limit), the merged, truncated list returned by the hybrid merge never
contains two entries whose chunks have the same content fingerprint: the
fingerprint is the sole deduplication key used by
`_combine_search_results`, whatever the chunks' identifiers or indices
are. -/
theorem combine_no_duplicate_fingerprints (semantic text : List Result)
    (limit : Int) :
    (combine_search_results semantic text limit).Pairwise
      (fun a b => a.1.content_hash ≠ b.1.content_hash) :=
  (merged_results_pairwise_hash semantic text).sublist
    (combine_sublist_merged semantic text limit)

/-- C5.  For every pair of semantic and lexical input lists (and any
limit), the merged, truncated list returned by `_combine_search_results`
is sorted by score in non-increasing order: every entry's score is at
least the score of every later entry, in particular of the adjacent one. -/
theorem combine_sorted_by_score_desc (semantic text : List Result)
    (limit : Int) :
    (combine_search_results semantic text limit).Pairwise
      (fun a b => b.2 ≤ a.2) :=
  (merged_results_sorted semantic text).sublist
    (combine_sublist_merged semantic text limit)

lemma filterKey_update_ne (m : List (String × Result)) (k : String)
    (v : Result) (h : String) (hne : k ≠ h) :
    filterKey (m.map (fun p => if p.1 == k then (k, v) else p)) h
      = filterKey m h := by
  unfold filterKey
  rw [List.filter_map]
  have hpred : ((fun p : String × Result => p.1 == h) ∘
      (fun p => if p.1 == k then (k, v) else p))
        = (fun p : String × Result => p.1 == h) := by
    funext p
    by_cases hp : p.1 = k
    · simp [Function.comp, hp, hne]
    · simp [Function.comp, hp]
  rw [hpred]
  have hid : ∀ q ∈ m.filter (fun p : String × Result => p.1 == h),
      (if q.1 == k then (k, v) else q) = q := by
    intro q hq
    have hqh : q.1 = h := by
      have := (List.mem_filter.mp hq).2
      simpa using this
    have hne2 : ¬(q.1 == k) = true := by
      simp only [hqh, beq_iff_eq]
      exact fun he => hne he.symm
    rw [if_neg hne2]
  rw [List.map_congr_left hid]
  simp

lemma filterKey_dictInsert_ne (m : List (String × Result)) (k : String)
    (v : Result) (h : String) (hne : k ≠ h) :
    filterKey (dictInsert m k v) h = filterKey m h := by
  unfold dictInsert
  split
  · exact filterKey_update_ne m k v h hne
  · unfold filterKey
    rw [List.filter_append]
    simp [hne]

lemma filterKey_append_self (m : List (String × Result)) (k : String)
    (v : Result) :
    filterKey (m ++ [(k, v)]) k = filterKey m k ++ [(k, v)] := by
  unfold filterKey
  rw [List.filter_append]
  simp

lemma keyMem_append_left (m l : List (String × Result)) (k : String)
    (hm : keyMem m k = true) : keyMem (m ++ l) k = true := by
  simp only [keyMem, List.any_append, Bool.or_eq_true]
  exact Or.inl hm

lemma filterKey_foldl_insertSemantic_ne (sem : List Result) :
    ∀ (m : List (String × Result)) (h : String),
      (∀ p ∈ sem, p.1.content_hash ≠ h) →
      filterKey (sem.foldl insertSemantic m) h = filterKey m h := by
  induction sem with
  | nil => intro m h _; rfl
  | cons x rest ih =>
    intro m h hall
    simp only [List.foldl_cons]
    rw [ih _ _ (fun p hp => hall p (List.mem_cons_of_mem _ hp))]
    exact filterKey_dictInsert_ne m _ x h (hall x (List.mem_cons_self _ _))

lemma filterKey_foldl_insertSemantic_single (sem : List Result) :
    ∀ (m : List (String × Result)) (c : Chunk) (s : ℚ),
      filterKey m c.content_hash = [] →
      sem.filter (fun p => p.1.content_hash == c.content_hash) = [(c, s)] →
      filterKey (sem.foldl insertSemantic m) c.content_hash
        = [(c.content_hash, (c, s))] := by
  induction sem with
  | nil =>
    intro m c s _ hfil
    simp at hfil
  | cons x rest ih =>
    intro m c s hm hfil
    by_cases hx : x.1.content_hash = c.content_hash
    · rw [List.filter_cons_of_pos (by simp [hx])] at hfil
      injection hfil with hx2 hrest
      simp only [List.foldl_cons]
      have hkm : keyMem m c.content_hash = false :=
        (filterKey_eq_nil_iff m c.content_hash).mp hm
      have hins : insertSemantic m x = m ++ [(c.content_hash, x)] := by
        unfold insertSemantic dictInsert
        rw [hx, if_neg (by simp [hkm])]
      rw [hins, filterKey_foldl_insertSemantic_ne rest _ _
        (by
          intro p hp hph
          have := List.filter_eq_nil_iff.mp hrest p hp
          simp [hph] at this)]
      rw [filterKey_append_self, hm, hx2]
      rfl
    · rw [List.filter_cons_of_neg (by simp [hx])] at hfil
      simp only [List.foldl_cons]
      refine ih _ c s ?_ hfil
      show filterKey (insertSemantic m x) c.content_hash = []
      unfold insertSemantic
      rw [filterKey_dictInsert_ne m _ x _ hx]
      exact hm

lemma filterKey_foldl_insertText_mem (lex : List Result) :
    ∀ (m : List (String × Result)) (h : String), keyMem m h = true →
      filterKey (lex.foldl insertText m) h = filterKey m h := by
  induction lex with
  | nil => intro m h _; rfl
  | cons x rest ih =>
    intro m h hm
    simp only [List.foldl_cons]
    by_cases hx : keyMem m x.1.content_hash = true
    · rw [show insertText m x = m from by unfold insertText; rw [if_pos hx]]
      exact ih m h hm
    · have hxf : keyMem m x.1.content_hash = false :=
        Bool.eq_false_iff.mpr hx
      have hne : x.1.content_hash ≠ h := by
        intro he
        rw [he, hm] at hxf
        exact Bool.true_eq_false.mp hxf
      rw [show insertText m x = m ++ [(x.1.content_hash, x)] from by
        unfold insertText; rw [if_neg (by simp [hxf])]]
      rw [ih _ h (keyMem_append_left m _ h hm)]
      unfold filterKey
      rw [List.filter_append]
      simp [hne]

lemma filter_map_snd (h : String) :
    ∀ (m : List (String × Result)),
      (∀ p ∈ m, p.1 = p.2.1.content_hash) →
      (m.map Prod.snd).filter (fun p => p.1.content_hash == h)
        = (filterKey m h).map Prod.snd := by
  intro m
  induction m with
  | nil => intro _; rfl
  | cons p rest ih =>
    intro hm
    have hp := hm p (List.mem_cons_self _ _)
    have hrest := ih (fun q hq => hm q (List.mem_cons_of_mem _ hq))
    by_cases hh : p.1 = h
    · have hch : p.2.1.content_hash = h := by rw [← hp, hh]
      simp only [filterKey, List.map_cons, List.filter_cons] at hrest ⊢
      simp [hh, hch, hrest]
    · have hch : p.2.1.content_hash ≠ h := by rw [← hp]; exact hh
      simp only [filterKey, List.map_cons, List.filter_cons] at hrest ⊢
      simp [hh, hch, hrest]

lemma merged_results_filter_single (sem lex : List Result) (c : Chunk)
    (s : ℚ)
    (hsem : sem.filter (fun p => p.1.content_hash == c.content_hash)
      = [(c, s)]) :
    (merged_results sem lex).filter
      (fun p => p.1.content_hash == c.content_hash) = [(c, s)] := by
  have h1 : filterKey (sem.foldl insertSemantic []) c.content_hash
      = [(c.content_hash, (c, s))] :=
    filterKey_foldl_insertSemantic_single sem [] c s rfl hsem
  have hkm : keyMem (sem.foldl insertSemantic []) c.content_hash = true :=
    keyMem_true_of_filterKey_ne_nil _ _ (by rw [h1]; simp)
  have h2 : filterKey (mergeMap sem lex) c.content_hash
      = [(c.content_hash, (c, s))] := by
    unfold mergeMap
    rw [filterKey_foldl_insertText_mem lex _ _ hkm, h1]
  have h3 : ((mergeMap sem lex).map Prod.snd).filter
      (fun p => p.1.content_hash == c.content_hash) = [(c, s)] := by
    rw [filter_map_snd c.content_hash _ (goodMap_mergeMap sem lex).2, h2]
    rfl
  have hperm := (List.perm_insertionSort scoreDesc
    ((mergeMap sem lex).map Prod.snd)).filter
    (fun p => p.1.content_hash == c.content_hash)
  rw [h3] at hperm
  exact List.perm_singleton.mp hperm

/-- C1 (amended).  If a chunk `c` occurs (exactly once) in the semantic
list with score `s` and also occurs in the lexical list with a different
score, then the merged collection built by `_combine_search_results`
(before the final `[:limit]` truncation) contains exactly one entry with
`c`'s fingerprint, and that entry is `(c, s)` — the semantic score, not
the lexical one.  After truncation the returned list contains at most one
entry with that fingerprint, and if the entry survives it is `(c, s)`. -/
theorem merge_keeps_semantic_score (sem lex : List Result) (limit : Int)
    (c : Chunk) (s : ℚ)
    (hsem : sem.filter (fun p => p.1.content_hash == c.content_hash)
      = [(c, s)])
    (hlex : ∃ q ∈ lex, q.1.content_hash = c.content_hash ∧ q.2 ≠ s) :
    (merged_results sem lex).filter
      (fun p => p.1.content_hash == c.content_hash) = [(c, s)]
    ∧ ((combine_search_results sem lex limit).filter
        (fun p => p.1.content_hash == c.content_hash) = []
      ∨ (combine_search_results sem lex limit).filter
          (fun p => p.1.content_hash == c.content_hash) = [(c, s)]) := by
  have hmain := merged_results_filter_single sem lex c s hsem
  refine ⟨hmain, ?_⟩
  have hsub := (combine_sublist_merged sem lex limit).filter
    (fun p => p.1.content_hash == c.content_hash)
  rw [hmain] at hsub
  exact List.sublist_singleton.mp hsub

/-- C1, counterexample to the literal claim: `chunkB` appears in both
input lists with different scores (semantic 0.5, lexical 0.6), yet with
`limit = 1` the list returned by the merge contains no entry at all for
`chunkB`'s fingerprint — "exactly one entry" fails once the final
truncation drops the chunk. -/
theorem merge_truncation_can_drop_shared_chunk :
    combine_search_results [(chunkA, mkRat 9 10), (chunkB, mkRat 1 2)]
      [(chunkB, mkRat 6 10)] 1 = [(chunkA, mkRat 9 10)]
    ∧ (combine_search_results [(chunkA, mkRat 9 10), (chunkB, mkRat 1 2)]
        [(chunkB, mkRat 6 10)] 1).filter
        (fun p => p.1.content_hash == chunkB.content_hash) = [] := by
  constructor
  · decide
  · decide

/-- C1, witness: the spec's concrete scenario.  With
semantic = `[(chunkA, 0.9), (chunkB, 0.5)]`,
lexical = `[(chunkB, 0.6), (chunkC, 0.8)]` and limit 3, the result is
`[(chunkA, 0.9), (chunkC, 0.8), (chunkB, 0.5)]`, and the single entry for
`chunkB`'s fingerprint carries the semantic score 0.5. -/
theorem merge_keeps_semantic_score_witness :
    (merged_results [(chunkA, mkRat 9 10), (chunkB, mkRat 1 2)]
      [(chunkB, mkRat 6 10), (chunkC, mkRat 8 10)]).filter
      (fun p => p.1.content_hash == chunkB.content_hash)
      = [(chunkB, mkRat 1 2)]
    ∧ combine_search_results [(chunkA, mkRat 9 10), (chunkB, mkRat 1 2)]
        [(chunkB, mkRat 6 10), (chunkC, mkRat 8 10)] 3
      = [(chunkA, mkRat 9 10), (chunkC, mkRat 8 10), (chunkB, mkRat 1 2)] :=
  ⟨(merge_keeps_semantic_score
      [(chunkA, mkRat 9 10), (chunkB, mkRat 1 2)]
      [(chunkB, mkRat 6 10), (chunkC, mkRat 8 10)] 3 chunkB (mkRat 1 2)
      (by decide)
      ⟨(chunkB, mkRat 6 10), by decide, by decide, by decide⟩).1,
    by decide⟩

lemma trunc_nil (question : String) (max_length : Nat) :
    truncate_context_if_needed [] question max_length = [] := by
  unfold truncate_context_if_needed
  rfl

lemma trunc_step (context : List ContextItem) (question : String)
    (max_length : Nat) (hc : context ≠ []) :
    truncate_context_if_needed context question max_length
      = if validate_prompt_length (format_prompt question context) max_length
          then context
        else truncate_context_if_needed context.dropLast question max_length := by
  conv_lhs => rw [truncate_context_if_needed]
  rw [dif_neg hc]

lemma trunc_spec (question : String) (max_length : Nat) :
    ∀ (n : Nat) (context : List ContextItem), context.length ≤ n →
      (truncate_context_if_needed context question max_length).length
        ≤ context.length
      ∧ (truncate_context_if_needed context question max_length = []
        ∨ validate_prompt_length (format_prompt question
            (truncate_context_if_needed context question max_length))
            max_length = true) := by
  intro n
  induction n with
  | zero =>
    intro context hlen
    have hc : context = [] :=
      List.eq_nil_of_length_eq_zero (Nat.le_zero.mp hlen)
    subst hc
    rw [trunc_nil]
    exact ⟨Nat.le_refl 0, Or.inl rfl⟩
  | succ n ih =>
    intro context hlen
    by_cases hc : context = []
    · subst hc
      rw [trunc_nil]
      exact ⟨Nat.le_refl 0, Or.inl rfl⟩
    · rw [trunc_step context question max_length hc]
      by_cases hv : validate_prompt_length (format_prompt question context)
          max_length = true
      · rw [if_pos hv]
        exact ⟨Nat.le_refl _, Or.inr hv⟩
      · rw [if_neg hv]
        have hdrop : context.dropLast.length ≤ n := by
          rw [List.length_dropLast]
          omega
        obtain ⟨ih1, ih2⟩ := ih context.dropLast hdrop
        refine ⟨le_trans ih1 ?_, ih2⟩
        rw [List.length_dropLast]
        omega

lemma trunc_prefix_aux (question : String) (max_length : Nat) :
    ∀ (n : Nat) (context : List ContextItem), context.length ≤ n →
      truncate_context_if_needed context question max_length <+: context := by
  intro n
  induction n with
  | zero =>
    intro context hlen
    have hc : context = [] :=
      List.eq_nil_of_length_eq_zero (Nat.le_zero.mp hlen)
    subst hc
    rw [trunc_nil]
  | succ n ih =>
    intro context hlen
    by_cases hc : context = []
    · subst hc
      rw [trunc_nil]
    · rw [trunc_step context question max_length hc]
      by_cases hv : validate_prompt_length (format_prompt question context)
          max_length = true
      · rw [if_pos hv]
      · rw [if_neg hv]
        have hdrop : context.dropLast.length ≤ n := by
          rw [List.length_dropLast]
          omega
        have hpre := List.dropLast_prefix context
        exact (ih context.dropLast hdrop).trans hpre

/-- C9.  For every context list, question and maximum length,
`truncate_context_if_needed` is a total function (each loop iteration
removes one item, so it stops after at most `len(context)` removals), the
returned list has at most as many items as the input, and on return either
the list is empty or the rendered prompt's character length is within the
maximum. -/
theorem truncate_terminates_and_fits (context : List ContextItem)
    (question : String) (max_length : Nat) :
    (truncate_context_if_needed context question max_length).length
      ≤ context.length
    ∧ (truncate_context_if_needed context question max_length = []
      ∨ validate_prompt_length (format_prompt question
          (truncate_context_if_needed context question max_length))
          max_length = true) :=
  trunc_spec question max_length context.length context (Nat.le_refl _)

/-- C10.  For every context list and question,
`truncate_context_if_needed` returns a prefix of its input: items are
removed only from the tail and the surviving items keep their order and
content.  (The Python function pops from a shallow copy —
`test_context = context.copy()` — so the caller's list object is never
mutated; in this pure model that frame condition is inherent, and the
prefix property is the content of the claim.) -/
theorem truncate_returns_prefix (context : List ContextItem)
    (question : String) (max_length : Nat) :
    truncate_context_if_needed context question max_length <+: context :=
  trunc_prefix_aux question max_length context.length context (Nat.le_refl _)

lemma hybrid_fst (svc : Services) (question : String) (emb : List ℚ)
    (limit : Int) (log : CallLog) :
    (hybrid_search_chunks svc question emb limit log).1
      = combine_search_results
          (svc.search_similar_chunks emb (max 1 (intTimesPoint7 limit)) 0)
          (search_text_chunks svc.db (extract_key_terms question)
            (max 1 (limit - (svc.search_similar_chunks emb
              (max 1 (intTimesPoint7 limit)) 0).length)))
          limit := rfl

lemma hybrid_snd (svc : Services) (question : String) (emb : List ℚ)
    (limit : Int) (log : CallLog) :
    (hybrid_search_chunks svc question emb limit log).2
      = { log with
          semantic_calls :=
            log.semantic_calls ++ [(max 1 (intTimesPoint7 limit), 0)]
          text_calls :=
            log.text_calls ++ [(extract_key_terms question,
              max 1 (limit - (svc.search_similar_chunks emb
                (max 1 (intTimesPoint7 limit)) 0).length))] } := rfl

lemma generate_ai_response_snd (svc : Services) (question : String)
    (context : List ContextItem) (log : CallLog) :
    (generate_ai_response svc question context log).2
      = { log with
          limit_checks := log.limit_checks + 1
          generate_calls := log.generate_calls + 1 } := rfl

lemma combine_length_le (semantic text : List Result) (N : Int)
    (hN : 0 ≤ N) :
    ((combine_search_results semantic text N).length : Int) ≤ N := by
  unfold combine_search_results pySliceTo
  rw [if_pos hN]
  calc ((List.take N.toNat (merged_results semantic text)).length : Int)
      ≤ (N.toNat : Int) := by exact_mod_cast List.length_take_le _ _
    _ = N := Int.toNat_of_nonneg hN

lemma combine_limit_zero (semantic text : List Result) :
    combine_search_results semantic text 0 = [] := by
  unfold combine_search_results pySliceTo
  simp

/-- C6.  For every limit `N ≥ 0`, the hybrid retrieval returns at most `N`
results, and `N = 0` yields the empty list (without error: the model is a
total function), even though both sub-limits passed to the store are
clamped to a minimum of 1 — the final `[:limit]` truncation still obeys
the literal limit. -/
theorem hybrid_respects_limit (svc : Services) (question : String)
    (emb : List ℚ) (N : Int) (log : CallLog) (hN : 0 ≤ N) :
    ((hybrid_search_chunks svc question emb N log).1.length : Int) ≤ N
    ∧ (N = 0 → (hybrid_search_chunks svc question emb N log).1 = []) := by
  rw [hybrid_fst]
  refine ⟨combine_length_le _ _ N hN, fun h0 => ?_⟩
  subst h0
  exact combine_limit_zero _ _

/-- C6, witness: with a store whose semantic search returns a chunk (so the
clamped sub-limits do fetch results), limit 0 still yields the empty
list. -/
theorem hybrid_respects_limit_witness :
    (hybrid_search_chunks svcSemA "faturamento" [] 0 {}).1 = [] :=
  (hybrid_respects_limit svcSemA "faturamento" [] 0 {} (by decide)).2 rfl

/-- C7.  For every limit, the hybrid retrieval invokes the semantic
primitive exactly once, with sub-limit `max(1, int(limit * 0.7))` (the
truncation of `limit × 0.7`, floor for non-negative limits) and similarity
threshold 0, and then invokes the lexical primitive exactly once, with
sub-limit `max(1, limit − len(semantic results actually returned))`. -/
theorem hybrid_sublimit_calls (svc : Services) (question : String)
    (emb : List ℚ) (limit : Int) (log : CallLog) :
    (hybrid_search_chunks svc question emb limit log).2.semantic_calls
      = log.semantic_calls ++ [(spec_semantic_sublimit limit, 0)]
    ∧ (hybrid_search_chunks svc question emb limit log).2.text_calls
      = log.text_calls ++ [(extract_key_terms question,
          spec_lexical_sublimit limit
            (svc.search_similar_chunks emb
              (spec_semantic_sublimit limit) 0).length)] := by
  rw [hybrid_snd]
  exact ⟨rfl, rfl⟩

lemma search_text_chunks_nil_terms (db : List Chunk) (limit : Int) :
    search_text_chunks db [] limit = [] := by
  unfold search_text_chunks
  rw [if_pos rfl]

/-- C8.  For every question whose key-term extraction yields no terms, the
lexical search contributes zero results (the repository short-circuits on
an empty term list instead of issuing — or crashing on — a term-less SQL
query), so the hybrid retrieval output is determined entirely by the
semantic results: it equals the merge of the semantic results with the
empty lexical list. -/
theorem hybrid_empty_terms_semantic_only (svc : Services)
    (question : String) (emb : List ℚ) (limit : Int) (log : CallLog)
    (hterms : extract_key_terms question = []) :
    (hybrid_search_chunks svc question emb limit log).1
      = combine_search_results
          (svc.search_similar_chunks emb (spec_semantic_sublimit limit) 0)
          [] limit := by
  rw [hybrid_fst, hterms, search_text_chunks_nil_terms]
  rfl

/-- C8, witness: "o que se" consists of stop words and short tokens only,
so extraction is empty and retrieval returns exactly the merged semantic
results. -/
theorem hybrid_empty_terms_semantic_only_witness :
    (hybrid_search_chunks svcSemA "o que se" [] 5 {}).1
      = combine_search_results [(chunkA, mkRat 9 10)] [] 5 :=
  hybrid_empty_terms_semantic_only svcSemA "o que se" [] 5 {} (by decide)

/-- C2.  For every question whose hybrid retrieval yields an empty result
list, `execute` returns exactly the fixed fallback string and never enters
`_generate_ai_response` — the only site that formats context, builds the
prompt and calls the language model — witnessed by the prompt-budget-check
and generation call counters both remaining zero. -/
theorem execute_empty_results_fallback (svc : Services) (question : String)
    (limit : Int)
    (hempty : (hybrid_search_chunks svc question (svc.embed question) limit
      { embed_calls := 1 }).1 = []) :
    (execute svc question limit).1
      = "Não tenho informações necessárias para responder sua pergunta."
    ∧ (execute svc question limit).2.generate_calls = 0
    ∧ (execute svc question limit).2.limit_checks = 0 := by
  simp [execute, hempty, hybrid_snd]

/-- C2, witness: collaborators that find nothing make `execute` return the
fallback without any language-model activity. -/
theorem execute_empty_results_fallback_witness :
    (execute svcEmpty "teste" 10).1
      = "Não tenho informações necessárias para responder sua pergunta."
    ∧ (execute svcEmpty "teste" 10).2.generate_calls = 0
    ∧ (execute svcEmpty "teste" 10).2.limit_checks = 0 :=
  execute_empty_results_fallback svcEmpty "teste" 10 (by decide)

/-- C3 (amended).  `execute` performs no validation of the question at
all: for every question — empty and whitespace-only ones included — it
invokes the embedding client exactly once and then both store primitives
exactly once each; no validation error is raised (the model is a total
function).  The only empty-input check in the source lives in the CLI
loop, which re-prompts before ever calling `execute`. -/
theorem execute_never_validates_question (svc : Services)
    (question : String) (limit : Int) :
    (execute svc question limit).2.embed_calls = 1
    ∧ (execute svc question limit).2.semantic_calls
        = [(spec_semantic_sublimit limit, 0)]
    ∧ (execute svc question limit).2.text_calls.length = 1 := by
  simp only [execute]
  split
  · simp [hybrid_snd, spec_semantic_sublimit]
  · simp [generate_ai_response_snd, hybrid_snd, spec_semantic_sublimit]

/-- C3, counterexample to the literal claim: for the empty question and a
whitespace-only question, `execute` does reach the collaborators — the
embedding client is called once and the vector store is queried (sub-limit
7, threshold 0) — instead of rejecting the question with a validation
error before any external call. -/
theorem execute_blank_question_reaches_collaborators :
    (execute svcEmpty "" 10).2.embed_calls = 1
    ∧ (execute svcEmpty "" 10).2.semantic_calls = [(7, 0)]
    ∧ (execute svcEmpty " " 10).2.embed_calls = 1
    ∧ (execute svcEmpty " " 10).2.semantic_calls = [(7, 0)] := by
  refine ⟨?_, ?_, ?_, ?_⟩ <;> decide

end RagSearch
